import Mathlib

/-!
Shallow embedding of the gradebook manager in `logic.py`.

Modelling choices:
* Python floats (`score`, `max_points`) are modelled as rationals (`ℚ`);
  every value the program manipulates is produced by arithmetic on
  user-supplied decimals, and the claims only concern exact comparisons.
* Python ints (`course_id`, `assignment_id`) are modelled as `Int`.
* The two CSV stores are modelled as lists of typed rows
  (`CourseRow`, `AssignmentRow`): Python's `csv` writer/reader together
  with `int`/`float`/`str` conversions round-trip these field values
  exactly, so a row list is a faithful abstraction of the file contents.
* Raising `ValueError` is modelled with `Except String`; a mutator
  returns the (unchanged) state together with the error, mirroring the
  fact that the Python `raise` happens before any mutation.
* `GradeCalculator`'s object state is the structure `GCState`; the two
  on-disk stores are carried in the state, and `saveCount` counts how
  many times `save_all_data` rewrote them.
* Python `==` on plain objects is identity; structurally equal values
  are interchangeable for every claim below, so list membership and
  removal use structural (decidable) equality.
-/

namespace Gradebook

/-- An assignment record, as in `Assignment.__init__`. -/
structure Assignment where
  assignment_id : Int
  course_id : Int
  name : String
  score : ℚ
  max_points : ℚ
deriving DecidableEq

/-- `Assignment.get_percentage`: score/max_points*100, or 0.0 when max_points is 0. -/
def Assignment.get_percentage (a : Assignment) : ℚ :=
  if a.max_points = 0 then 0 else a.score / a.max_points * 100

/-- A course record, as in `Course.__init__` (assignments start empty). -/
structure Course where
  course_id : Int
  name : String
  assignments : List Assignment
deriving DecidableEq

/-- `Course.add_assignment`: append to the assignment list. -/
def Course.add_assignment (c : Course) (a : Assignment) : Course :=
  { c with assignments := c.assignments ++ [a] }

/-- `Course.remove_assignment`: remove the first matching element if present. -/
def Course.remove_assignment (c : Course) (a : Assignment) : Course :=
  if a ∈ c.assignments then { c with assignments := c.assignments.erase a } else c

/-- `sum(a.score for a in self.assignments)`. -/
def Course.total_earned (c : Course) : ℚ :=
  (c.assignments.map Assignment.score).sum

/-- `sum(a.max_points for a in self.assignments)`. -/
def Course.total_possible (c : Course) : ℚ :=
  (c.assignments.map Assignment.max_points).sum

/-- `Course.calculate_grade`. -/
def Course.calculate_grade (c : Course) : ℚ :=
  if c.assignments = [] then 0
  else if c.total_possible = 0 then 0
  else c.total_earned / c.total_possible * 100

/-- `Course.get_letter_grade`. -/
def Course.get_letter_grade (c : Course) : String :=
  if 90 ≤ c.calculate_grade then "A"
  else if 80 ≤ c.calculate_grade then "B"
  else if 70 ≤ c.calculate_grade then "C"
  else if 60 ≤ c.calculate_grade then "D"
  else "F"

/-- The `grade_scale` dictionary in `Course.calculate_gpa`. -/
def grade_scale : List (String × ℚ) :=
  [("A", 4), ("B", 3), ("C", 2), ("D", 1), ("F", 0)]

/-- `Course.calculate_gpa`: `grade_scale.get(letter_grade, 0.0)`. -/
def Course.calculate_gpa (c : Course) : ℚ :=
  ((grade_scale.lookup c.get_letter_grade).getD 0)

/-- One row of `courses.csv` (after the header): `course_id, name`. -/
structure CourseRow where
  course_id : Int
  name : String
deriving DecidableEq

/-- One row of `assignments.csv` (after the header):
`assignment_id, course_id, name, score, max_points`. -/
structure AssignmentRow where
  assignment_id : Int
  course_id : Int
  name : String
  score : ℚ
  max_points : ℚ
deriving DecidableEq

/-- `DataManager.load_courses`: one empty `Course` per row. -/
def load_courses (rows : List CourseRow) : List Course :=
  rows.map (fun r => ⟨r.course_id, r.name, []⟩)

/-- `DataManager.load_assignments`: one `Assignment` per row. -/
def load_assignments (rows : List AssignmentRow) : List Assignment :=
  rows.map (fun r => ⟨r.assignment_id, r.course_id, r.name, r.score, r.max_points⟩)

/-- `DataManager.save_all_courses`: overwrite the course store with one
row per course, in order. -/
def save_all_courses (courses : List Course) : List CourseRow :=
  courses.map (fun c => ⟨c.course_id, c.name⟩)

/-- `DataManager.save_all_assignments`: overwrite the assignment store,
iterating courses in order and each course's assignments in order. -/
def save_all_assignments (courses : List Course) : List AssignmentRow :=
  (courses.map (fun c =>
    c.assignments.map (fun a =>
      (⟨a.assignment_id, a.course_id, a.name, a.score, a.max_points⟩ : AssignmentRow)))).flatten

/-- The inner loop of `GradeCalculator.load_all_data`: attach assignment
`a` to the first course whose `course_id` matches, then `break`. -/
def linkOne (courses : List Course) (a : Assignment) : List Course :=
  match courses with
  | [] => []
  | c :: rest =>
      if c.course_id = a.course_id then c.add_assignment a :: rest
      else c :: linkOne rest a

/-- `GradeCalculator.load_all_data`: load both stores, then link each
assignment in file order to its owning course. -/
def load_all_data (crows : List CourseRow) (arows : List AssignmentRow) : List Course :=
  (load_assignments arows).foldl linkOne (load_courses crows)

/-- The mutable state of a `GradeCalculator` object together with the two
on-disk stores it owns; `saveCount` counts calls to `save_all_data`. -/
structure GCState where
  courses : List Course
  courses_file : List CourseRow
  assignments_file : List AssignmentRow
  saveCount : Nat
deriving DecidableEq

/-- `GradeCalculator.save_all_data`: rewrite both stores from the
in-memory collection. -/
def save_all_data (s : GCState) : GCState :=
  { s with
    courses_file := save_all_courses s.courses
    assignments_file := save_all_assignments s.courses
    saveCount := s.saveCount + 1 }

/-- `GradeCalculator.get_all_courses`. -/
def get_all_courses (s : GCState) : List Course :=
  s.courses

/-- Python's `max(xs, default=0)` on a list of ints. -/
def maxOr0 : List Int → Int
  | [] => 0
  | x :: xs => xs.foldl max x

/-- Python's `str.strip()`: drop leading and trailing whitespace. -/
def pyStrip (s : String) : String :=
  String.mk (((s.data.dropWhile Char.isWhitespace).reverse.dropWhile Char.isWhitespace).reverse)

/-- `GradeCalculator.__init__` / `load_all_data`, starting from stores
with the given contents. -/
def initialState (crows : List CourseRow) (arows : List AssignmentRow) : GCState :=
  { courses := load_all_data crows arows
    courses_file := crows
    assignments_file := arows
    saveCount := 0 }

/-- `GradeCalculator.add_course`. -/
def add_course (s : GCState) (name : String) : GCState × Except String Course :=
  if pyStrip name = "" then (s, Except.error "Course name cannot be empty")
  else
    let new_id := maxOr0 (s.courses.map Course.course_id) + 1
    let course : Course := ⟨new_id, pyStrip name, []⟩
    (save_all_data { s with courses := s.courses ++ [course] }, Except.ok course)

/-- `GradeCalculator.delete_course`: remove and save only if present. -/
def delete_course (s : GCState) (course : Course) : GCState :=
  if course ∈ s.courses then save_all_data { s with courses := s.courses.erase course }
  else s

/-- Apply `f` to the first element of the list equal to `target`,
embedding Python's in-place mutation of a course object held in the
collection. -/
def updateFirst (courses : List Course) (target : Course) (f : Course → Course) : List Course :=
  match courses with
  | [] => []
  | c :: rest => if c = target then f c :: rest else c :: updateFirst rest target f

/-- `GradeCalculator.add_assignment`. -/
def add_assignment (s : GCState) (course : Course) (name : String)
    (score max_points : ℚ) : GCState × Except String Assignment :=
  if pyStrip name = "" then (s, Except.error "Assignment name cannot be empty")
  else if max_points ≤ 0 then (s, Except.error "Max points must be greater than 0")
  else if score < 0 then (s, Except.error "Score cannot be negative")
  else if max_points < score then (s, Except.error "Score cannot exceed max points")
  else
    let all_assignments := (s.courses.map Course.assignments).flatten
    let new_id := maxOr0 (all_assignments.map Assignment.assignment_id) + 1
    let a : Assignment := ⟨new_id, course.course_id, pyStrip name, score, max_points⟩
    (save_all_data { s with courses := updateFirst s.courses course (fun c => c.add_assignment a) },
     Except.ok a)

/-- `GradeCalculator.delete_assignment`: remove from the course (no-op if
absent) and save unconditionally. -/
def delete_assignment (s : GCState) (course : Course) (a : Assignment) : GCState :=
  save_all_data { s with courses := updateFirst s.courses course (fun c => c.remove_assignment a) }

/-- `GradeCalculator.calculate_overall_gpa`. -/
def calculate_overall_gpa (s : GCState) : ℚ :=
  if s.courses = [] then 0
  else (s.courses.map Course.calculate_gpa).sum / (s.courses.length : ℚ)

/-- `True` exactly on `Except.ok`; a call "fails" when this is `false`. -/
def isOk {α : Type} : Except String α → Bool
  | Except.ok _ => true
  | Except.error _ => false

instance {ε α : Type} [DecidableEq ε] [DecidableEq α] : DecidableEq (Except ε α) :=
  fun a b =>
    match a, b with
    | Except.ok x, Except.ok y =>
        if h : x = y then Decidable.isTrue (by rw [h])
        else Decidable.isFalse (by intro he; cases he; exact h rfl)
    | Except.error x, Except.error y =>
        if h : x = y then Decidable.isTrue (by rw [h])
        else Decidable.isFalse (by intro he; cases he; exact h rfl)
    | Except.ok _, Except.error _ => Decidable.isFalse (by intro he; cases he)
    | Except.error _, Except.ok _ => Decidable.isFalse (by intro he; cases he)

/-- Proof helper (not part of the source): the course `c` together with
every assignment of `as` whose `course_id` matches `c` and is not claimed
by an earlier course (one with id in `p`). -/
def linkFilter (p : List Int) (c : Course) (as : List Assignment) : Course :=
  { c with assignments :=
      c.assignments ++ as.filter (fun b => decide (b.course_id = c.course_id ∧ b.course_id ∉ p)) }

/-- Proof helper (not part of the source): closed form of the linking
loop, computed course by course; `p` collects the ids of earlier courses. -/
def linkSpec (p : List Int) (cs : List Course) (as : List Assignment) : List Course :=
  match cs with
  | [] => []
  | c :: rest => linkFilter p c as :: linkSpec (p ++ [c.course_id]) rest as

/-- Claim C7: `get_percentage` returns 0 when `max_points = 0`; and whenever
`0 ≤ score ≤ max_points` with `max_points > 0`, it equals
`score / max_points * 100` and lies between 0 and 100. -/
theorem C7_percentage (a : Assignment) :
    (a.max_points = 0 → a.get_percentage = 0) ∧
    (0 ≤ a.score → a.score ≤ a.max_points → 0 < a.max_points →
      a.get_percentage = a.score / a.max_points * 100 ∧
      0 ≤ a.get_percentage ∧ a.get_percentage ≤ 100) := by
  constructor
  · intro h
    simp [Assignment.get_percentage, h]
  · intro h0 h1 h2
    have hne : a.max_points ≠ 0 := ne_of_gt h2
    have heq : a.get_percentage = a.score / a.max_points * 100 := by
      simp [Assignment.get_percentage, hne]
    refine ⟨heq, ?_, ?_⟩
    · rw [heq]
      positivity
    · rw [heq]
      have hdiv : a.score / a.max_points ≤ 1 := (div_le_one h2).mpr h1
      nlinarith
/-- Witness for C7 at the assignment (score 8, max 10), both branches
exercised on concrete inputs. -/
theorem C7_percentage_witness :
    Assignment.get_percentage ⟨1, 1, "HW0", 0, 0⟩ = 0 ∧
    Assignment.get_percentage ⟨2, 1, "HW1", 8, 10⟩ = 8 / 10 * 100 ∧
    0 ≤ Assignment.get_percentage ⟨2, 1, "HW1", 8, 10⟩ ∧
    Assignment.get_percentage ⟨2, 1, "HW1", 8, 10⟩ ≤ 100 := by
  refine ⟨(C7_percentage ⟨1, 1, "HW0", 0, 0⟩).1 (by norm_num), ?_⟩
  have h := (C7_percentage ⟨2, 1, "HW1", 8, 10⟩).2 (by norm_num) (by norm_num) (by norm_num)
  exact ⟨h.1, h.2.1, h.2.2⟩

/-- Claim C6: `calculate_grade` is 0 on an empty assignment list or when the
total of `max_points` is 0, and otherwise equals
`total_earned / total_possible * 100`; the course with assignments
(8 of 10) and (18 of 20) grades to `(8+18)/(10+20)*100`. -/
theorem C6_calculate_grade :
    (∀ c : Course, c.assignments = [] → c.calculate_grade = 0) ∧
    (∀ c : Course, c.total_possible = 0 → c.calculate_grade = 0) ∧
    (∀ c : Course, c.total_possible ≠ 0 →
      c.calculate_grade = c.total_earned / c.total_possible * 100) ∧
    Course.calculate_grade
      ⟨1, "Algorithms", [⟨1, 1, "HW1", 8, 10⟩, ⟨2, 1, "HW2", 18, 20⟩]⟩
      = (8 + 18) / (10 + 20) * 100 := by
  refine ⟨?_, ?_, ?_, ?_⟩
  · intro c h
    simp [Course.calculate_grade, h]
  · intro c h
    simp [Course.calculate_grade, h]
  · intro c h
    have hne : c.assignments ≠ [] := by
      intro hnil
      apply h
      simp [Course.total_possible, hnil]
    simp [Course.calculate_grade, hne, h]
  · norm_num [Course.calculate_grade, Course.total_earned, Course.total_possible]
    simp
/-- Witness for C6: the empty course grades to 0 and the zero-total course
grades to 0, via the theorem's first two parts. -/
theorem C6_calculate_grade_witness :
    Course.calculate_grade ⟨1, "Empty", []⟩ = 0 ∧
    Course.calculate_grade ⟨2, "Zero", [⟨1, 2, "X", 0, 0⟩]⟩ = 0 ∧
    Course.calculate_grade ⟨3, "Half", [⟨2, 3, "Y", 5, 10⟩]⟩
      = Course.total_earned ⟨3, "Half", [⟨2, 3, "Y", 5, 10⟩]⟩
        / Course.total_possible ⟨3, "Half", [⟨2, 3, "Y", 5, 10⟩]⟩ * 100 := by
  refine ⟨C6_calculate_grade.1 ⟨1, "Empty", []⟩ rfl, ?_, ?_⟩
  · exact C6_calculate_grade.2.1 ⟨2, "Zero", [⟨1, 2, "X", 0, 0⟩]⟩ (by
      norm_num [Course.total_possible])
  · exact C6_calculate_grade.2.2.1 ⟨3, "Half", [⟨2, 3, "Y", 5, 10⟩]⟩ (by
      norm_num [Course.total_possible])

/-- Claim C5: the letter grade is determined by descending inclusive
thresholds (≥90 A, ≥80 B, ≥70 C, ≥60 D, else F), and concretely a grade of
exactly 90 gives "A", 89.999 gives "B", and 59.999 gives "F". -/
theorem C5_letter_grade :
    (∀ c : Course,
      (c.get_letter_grade = "A" ↔ 90 ≤ c.calculate_grade) ∧
      (c.get_letter_grade = "B" ↔ 80 ≤ c.calculate_grade ∧ c.calculate_grade < 90) ∧
      (c.get_letter_grade = "C" ↔ 70 ≤ c.calculate_grade ∧ c.calculate_grade < 80) ∧
      (c.get_letter_grade = "D" ↔ 60 ≤ c.calculate_grade ∧ c.calculate_grade < 70) ∧
      (c.get_letter_grade = "F" ↔ c.calculate_grade < 60)) ∧
    Course.calculate_grade ⟨1, "X", [⟨1, 1, "E", 90, 100⟩]⟩ = 90 ∧
    Course.get_letter_grade ⟨1, "X", [⟨1, 1, "E", 90, 100⟩]⟩ = "A" ∧
    Course.calculate_grade ⟨2, "Y", [⟨2, 2, "E", 89999/1000, 100⟩]⟩ = 89.999 ∧
    Course.get_letter_grade ⟨2, "Y", [⟨2, 2, "E", 89999/1000, 100⟩]⟩ = "B" ∧
    Course.calculate_grade ⟨3, "Z", [⟨3, 3, "E", 59999/1000, 100⟩]⟩ = 59.999 ∧
    Course.get_letter_grade ⟨3, "Z", [⟨3, 3, "E", 59999/1000, 100⟩]⟩ = "F" := by
  constructor
  · intro c
    unfold Course.get_letter_grade
    split_ifs with h1 h2 h3 h4 <;>
      refine ⟨?_, ?_, ?_, ?_, ?_⟩ <;>
      simp <;>
      first
        | linarith
        | (constructor <;> linarith)
        | (intro h; linarith)
  · refine ⟨?_, ?_, ?_, ?_, ?_, ?_⟩ <;>
      norm_num [Course.get_letter_grade, Course.calculate_grade, Course.total_earned,
        Course.total_possible]

/-- Claim C2: `add_assignment` fails exactly when the trimmed name is empty,
`max_points ≤ 0`, `score < 0`, or `score > max_points`; the checks run in
that order (fixing which message surfaces), and on rejection the state —
in-memory collection, both stores, and save counter — is unchanged. -/
theorem C2_add_assignment_validation (s : GCState) (course : Course) (name : String)
    (score max_points : ℚ) :
    (isOk (add_assignment s course name score max_points).2 = false ↔
      (pyStrip name = "" ∨ max_points ≤ 0 ∨ score < 0 ∨ max_points < score)) ∧
    (pyStrip name = "" →
      add_assignment s course name score max_points
        = (s, Except.error "Assignment name cannot be empty")) ∧
    (pyStrip name ≠ "" → max_points ≤ 0 →
      add_assignment s course name score max_points
        = (s, Except.error "Max points must be greater than 0")) ∧
    (pyStrip name ≠ "" → 0 < max_points → score < 0 →
      add_assignment s course name score max_points
        = (s, Except.error "Score cannot be negative")) ∧
    (pyStrip name ≠ "" → 0 < max_points → 0 ≤ score → max_points < score →
      add_assignment s course name score max_points
        = (s, Except.error "Score cannot exceed max points")) := by
  unfold add_assignment
  split_ifs with h1 h2 h3 h4 <;> simp_all [isOk]
/-- Witness for C2 at the inputs singled out by the spec: `max_points = 0`,
`score = -1`, and `score = max_points + 0.01` are each rejected with the
stated message and leave the state untouched. -/
theorem C2_add_assignment_validation_witness :
    add_assignment (initialState [] []) ⟨1, "Algorithms", []⟩ "HW1" 5 0
      = (initialState [] [], Except.error "Max points must be greater than 0") ∧
    add_assignment (initialState [] []) ⟨1, "Algorithms", []⟩ "HW1" (-1) 10
      = (initialState [] [], Except.error "Score cannot be negative") ∧
    add_assignment (initialState [] []) ⟨1, "Algorithms", []⟩ "HW1" (10 + 0.01) 10
      = (initialState [] [], Except.error "Score cannot exceed max points") := by
  refine ⟨?_, ?_, ?_⟩
  · exact (C2_add_assignment_validation (initialState [] []) ⟨1, "Algorithms", []⟩ "HW1" 5 0).2.2.1
      (by decide) (by norm_num)
  · exact (C2_add_assignment_validation (initialState [] []) ⟨1, "Algorithms", []⟩ "HW1"
      (-1) 10).2.2.2.1 (by decide) (by norm_num) (by norm_num)
  · exact (C2_add_assignment_validation (initialState [] []) ⟨1, "Algorithms", []⟩ "HW1"
      (10 + 0.01) 10).2.2.2.2 (by decide) (by norm_num) (by norm_num) (by norm_num)

/-- Claim C8: `calculate_overall_gpa` is the arithmetic mean of the per-course
GPAs and 0 on an empty collection; deleting the only course empties
`get_all_courses` and makes the overall GPA 0. -/
theorem C8_overall_gpa :
    (∀ s : GCState, s.courses = [] → calculate_overall_gpa s = 0) ∧
    (∀ s : GCState, s.courses ≠ [] →
      calculate_overall_gpa s
        = (s.courses.map Course.calculate_gpa).sum / (s.courses.length : ℚ)) ∧
    (∀ (s : GCState) (c : Course), s.courses = [c] →
      get_all_courses (delete_course s c) = [] ∧
      calculate_overall_gpa (delete_course s c) = 0) := by
  refine ⟨?_, ?_, ?_⟩
  · intro s h
    simp [calculate_overall_gpa, h]
  · intro s h
    simp [calculate_overall_gpa, h]
  · intro s c h
    have hmem : c ∈ s.courses := by
      rw [h]
      exact List.mem_singleton_self c
    have hcourses : (delete_course s c).courses = [] := by
      simp [delete_course, hmem, save_all_data, h]
    exact ⟨hcourses, by simp [calculate_overall_gpa, hcourses]⟩
/-- Witness for C8: the empty state has overall GPA 0; deleting the only
course of a one-course state empties the collection and zeroes the GPA. -/
theorem C8_overall_gpa_witness :
    calculate_overall_gpa (initialState [] []) = 0 ∧
    get_all_courses (delete_course ⟨[⟨1, "A", []⟩], [], [], 0⟩ ⟨1, "A", []⟩) = [] ∧
    calculate_overall_gpa (delete_course ⟨[⟨1, "A", []⟩], [], [], 0⟩ ⟨1, "A", []⟩) = 0 := by
  refine ⟨C8_overall_gpa.1 (initialState [] []) rfl, ?_⟩
  have h := C8_overall_gpa.2.2 ⟨[⟨1, "A", []⟩], [], [], 0⟩ ⟨1, "A", []⟩ rfl
  exact ⟨h.1, h.2⟩

/-- Proof helper: when the target is in the list, its image under `f` is in
the updated list. -/
theorem updateFirst_mem_apply (cs : List Course) (target : Course) (f : Course → Course)
    (h : target ∈ cs) : f target ∈ updateFirst cs target f := by
  induction cs with
  | nil => cases h
  | cons c rest ih =>
      show f target ∈ (if c = target then f c :: rest else c :: updateFirst rest target f)
      by_cases hc : c = target
      · rw [if_pos hc, hc]
        exact List.mem_cons_self _ _
      · have ht : target ∈ rest := by
          rcases List.mem_cons.mp h with h1 | h1
          · exact absurd h1.symm hc
          · exact h1
        rw [if_neg hc]
        exact List.mem_cons_of_mem c (ih ht)

/-- Proof helper: the row of any assignment held by any course of the
collection appears in the saved assignment store. -/
theorem mem_save_all_assignments {cs : List Course} {c : Course} {a : Assignment}
    (hc : c ∈ cs) (ha : a ∈ c.assignments) :
    (⟨a.assignment_id, a.course_id, a.name, a.score, a.max_points⟩ : AssignmentRow)
      ∈ save_all_assignments cs := by
  apply List.mem_flatten.mpr
  refine ⟨c.assignments.map (fun a =>
    (⟨a.assignment_id, a.course_id, a.name, a.score, a.max_points⟩ : AssignmentRow)), ?_, ?_⟩
  · exact List.mem_map_of_mem
      (fun c : Course => c.assignments.map (fun a =>
        (⟨a.assignment_id, a.course_id, a.name, a.score, a.max_points⟩ : AssignmentRow))) hc
  · exact List.mem_map_of_mem
      (fun a : Assignment =>
        (⟨a.assignment_id, a.course_id, a.name, a.score, a.max_points⟩ : AssignmentRow)) ha

/-- Claim C9: on success `add_course` and `add_assignment` return and store
entities named by the trimmed input: the new course carries the trimmed
name in the collection and in the persisted course store, and the new
assignment carries it in the returned object, in the owning course's list
and in the persisted assignment store. -/
theorem C9_trimmed_names :
    (∀ (s : GCState) (name : String), pyStrip name ≠ "" →
      ∃ c : Course,
        (add_course s name).2 = Except.ok c ∧
        c.name = pyStrip name ∧
        (add_course s name).1.courses = s.courses ++ [c] ∧
        (add_course s name).1.courses_file = save_all_courses (s.courses ++ [c])) ∧
    (∀ (s : GCState) (course : Course) (name : String) (score max_points : ℚ),
      pyStrip name ≠ "" → 0 < max_points → 0 ≤ score → score ≤ max_points →
      ∃ a : Assignment,
        (add_assignment s course name score max_points).2 = Except.ok a ∧
        a.name = pyStrip name ∧
        (add_assignment s course name score max_points).1.courses
          = updateFirst s.courses course (fun c => c.add_assignment a) ∧
        (add_assignment s course name score max_points).1.assignments_file
          = save_all_assignments
              (updateFirst s.courses course (fun c => c.add_assignment a)) ∧
        (course ∈ s.courses →
          ∃ c' ∈ (add_assignment s course name score max_points).1.courses,
            a ∈ c'.assignments ∧
            (⟨a.assignment_id, a.course_id, pyStrip name, a.score, a.max_points⟩ : AssignmentRow)
              ∈ (add_assignment s course name score max_points).1.assignments_file)) := by
  constructor
  · intro s name h
    refine ⟨⟨maxOr0 (s.courses.map Course.course_id) + 1, pyStrip name, []⟩, ?_, rfl, ?_, ?_⟩ <;>
      simp [add_course, h, save_all_data]
  · intro s course name score max_points h h1 h2 h3
    have h4 : ¬ max_points ≤ 0 := not_le.mpr h1
    have h5 : ¬ score < 0 := not_lt.mpr h2
    have h6 : ¬ max_points < score := not_lt.mpr h3
    have hcs : (add_assignment s course name score max_points).1.courses
        = updateFirst s.courses course (fun c => c.add_assignment
            ⟨maxOr0 (((s.courses.map Course.assignments).flatten).map
                Assignment.assignment_id) + 1,
              course.course_id, pyStrip name, score, max_points⟩) := by
      simp [add_assignment, h, h4, h5, h6, save_all_data]
    have hfile : (add_assignment s course name score max_points).1.assignments_file
        = save_all_assignments (updateFirst s.courses course (fun c => c.add_assignment
            ⟨maxOr0 (((s.courses.map Course.assignments).flatten).map
                Assignment.assignment_id) + 1,
              course.course_id, pyStrip name, score, max_points⟩)) := by
      simp [add_assignment, h, h4, h5, h6, save_all_data]
    refine ⟨⟨maxOr0 (((s.courses.map Course.assignments).flatten).map
        Assignment.assignment_id) + 1,
      course.course_id, pyStrip name, score, max_points⟩, ?_, rfl, hcs, hfile, ?_⟩
    · simp [add_assignment, h, h4, h5, h6]
    · intro hmem
      rw [hcs, hfile]
      refine ⟨Course.add_assignment course
          ⟨maxOr0 (((s.courses.map Course.assignments).flatten).map
              Assignment.assignment_id) + 1,
            course.course_id, pyStrip name, score, max_points⟩,
        updateFirst_mem_apply s.courses course _ hmem, ?_, ?_⟩
      · exact List.mem_append_right _ (List.mem_singleton_self _)
      · exact mem_save_all_assignments (updateFirst_mem_apply s.courses course _ hmem)
          (List.mem_append_right _ (List.mem_singleton_self _))
/-- Witness for C9: adding a course named " Algo " (with spaces) stores and
returns the trimmed name; adding an assignment named " HW1 " to the sole
course of a one-course state returns it trimmed, stores it trimmed in that
course's list, and persists the trimmed row in the assignment store. -/
theorem C9_trimmed_names_witness :
    (∃ c : Course,
      (add_course (initialState [] []) " Algo ").2 = Except.ok c ∧
      c.name = pyStrip " Algo " ∧
      (add_course (initialState [] []) " Algo ").1.courses
        = (initialState [] []).courses ++ [c] ∧
      (add_course (initialState [] []) " Algo ").1.courses_file
        = save_all_courses ((initialState [] []).courses ++ [c])) ∧
    (∃ a : Assignment,
      (add_assignment ⟨[⟨1, "Algo", []⟩], [], [], 0⟩ ⟨1, "Algo", []⟩ " HW1 " 8 10).2
        = Except.ok a ∧
      a.name = pyStrip " HW1 " ∧
      (add_assignment ⟨[⟨1, "Algo", []⟩], [], [], 0⟩ ⟨1, "Algo", []⟩ " HW1 " 8 10).1.courses
        = updateFirst [⟨1, "Algo", []⟩] ⟨1, "Algo", []⟩ (fun c => c.add_assignment a) ∧
      (add_assignment ⟨[⟨1, "Algo", []⟩], [], [], 0⟩
          ⟨1, "Algo", []⟩ " HW1 " 8 10).1.assignments_file
        = save_all_assignments
            (updateFirst [⟨1, "Algo", []⟩] ⟨1, "Algo", []⟩ (fun c => c.add_assignment a)) ∧
      ((⟨1, "Algo", []⟩ : Course) ∈ (⟨[⟨1, "Algo", []⟩], [], [], 0⟩ : GCState).courses →
        ∃ c' ∈ (add_assignment ⟨[⟨1, "Algo", []⟩], [], [], 0⟩
            ⟨1, "Algo", []⟩ " HW1 " 8 10).1.courses,
          a ∈ c'.assignments ∧
          (⟨a.assignment_id, a.course_id, pyStrip " HW1 ", a.score, a.max_points⟩ : AssignmentRow)
            ∈ (add_assignment ⟨[⟨1, "Algo", []⟩], [], [], 0⟩
                ⟨1, "Algo", []⟩ " HW1 " 8 10).1.assignments_file)) := by
  constructor
  · exact C9_trimmed_names.1 (initialState [] []) " Algo " (by decide)
  · exact C9_trimmed_names.2 ⟨[⟨1, "Algo", []⟩], [], [], 0⟩ ⟨1, "Algo", []⟩ " HW1 " 8 10
      (by decide) (by norm_num) (by norm_num) (by norm_num)

/-- Proof helper: `updateFirst` is the identity when `f` fixes the target. -/
theorem updateFirst_of_fix (courses : List Course) (target : Course) (f : Course → Course)
    (h : f target = target) : updateFirst courses target f = courses := by
  induction courses with
  | nil => rfl
  | cons c rest ih =>
      by_cases hc : c = target
      · simp [updateFirst, hc, h]
      · simp [updateFirst, hc, ih]

/-- Claim C10: `delete_assignment` rewrites both stores unconditionally —
even for a non-member assignment the save counter advances and both stores
are rewritten from the (unchanged) collection — while `delete_course` on a
course absent from the collection leaves the whole state untouched. -/
theorem C10_delete_persistence :
    (∀ (s : GCState) (course : Course) (a : Assignment),
      (delete_assignment s course a).saveCount = s.saveCount + 1) ∧
    (∀ (s : GCState) (course : Course) (a : Assignment),
      a ∉ course.assignments →
      (delete_assignment s course a).courses = s.courses ∧
      (delete_assignment s course a).courses_file = save_all_courses s.courses ∧
      (delete_assignment s course a).assignments_file = save_all_assignments s.courses) ∧
    (∀ (s : GCState) (course : Course),
      course ∉ s.courses → delete_course s course = s) := by
  refine ⟨?_, ?_, ?_⟩
  · intro s course a
    simp [delete_assignment, save_all_data]
  · intro s course a h
    have hfix : course.remove_assignment a = course := by
      simp [Course.remove_assignment, h]
    have hc : updateFirst s.courses course (fun c => c.remove_assignment a) = s.courses :=
      updateFirst_of_fix s.courses course _ hfix
    simp [delete_assignment, save_all_data, hc]
  · intro s course h
    simp [delete_course, h]
/-- Witness for C10: deleting a non-member assignment still bumps the save
counter and rewrites the stores; deleting a non-member course changes
nothing. -/
theorem C10_delete_persistence_witness :
    (delete_assignment ⟨[⟨1, "A", []⟩], [], [], 0⟩ ⟨1, "A", []⟩ ⟨1, 1, "HW", 1, 2⟩).saveCount
      = 0 + 1 ∧
    (delete_assignment ⟨[⟨1, "A", []⟩], [], [], 0⟩ ⟨1, "A", []⟩ ⟨1, 1, "HW", 1, 2⟩).courses
      = [⟨1, "A", []⟩] ∧
    delete_course ⟨[⟨1, "A", []⟩], [], [], 0⟩ ⟨2, "B", []⟩ = ⟨[⟨1, "A", []⟩], [], [], 0⟩ := by
  refine ⟨C10_delete_persistence.1 ⟨[⟨1, "A", []⟩], [], [], 0⟩ ⟨1, "A", []⟩ ⟨1, 1, "HW", 1, 2⟩,
    (C10_delete_persistence.2.1 ⟨[⟨1, "A", []⟩], [], [], 0⟩ ⟨1, "A", []⟩ ⟨1, 1, "HW", 1, 2⟩
      (by decide)).1,
    C10_delete_persistence.2.2 ⟨[⟨1, "A", []⟩], [], [], 0⟩ ⟨2, "B", []⟩ (by decide)⟩

/-- Proof helper: the seed of `List.foldl max` is bounded by the result. -/
theorem le_foldl_max (a : Int) (l : List Int) : a ≤ l.foldl max a := by
  induction l generalizing a with
  | nil => exact le_refl a
  | cons y ys ih => exact le_trans (le_max_left a y) (ih (max a y))

/-- Proof helper: every member of `l` is bounded by `List.foldl max` on `l`. -/
theorem mem_le_foldl_max {x : Int} (l : List Int) (a : Int) (h : x ∈ l) :
    x ≤ l.foldl max a := by
  induction l generalizing a with
  | nil => cases h
  | cons y ys ih =>
      rw [List.foldl_cons]
      rcases List.mem_cons.mp h with hy | hys
      · subst hy
        exact le_trans (le_max_right a x) (le_foldl_max (max a x) ys)
      · exact ih (max a y) hys

/-- Proof helper: every member of `l` is bounded by `maxOr0 l`. -/
theorem le_maxOr0 {x : Int} {l : List Int} (h : x ∈ l) : x ≤ maxOr0 l := by
  cases l with
  | nil => cases h
  | cons y ys =>
      show x ≤ ys.foldl max y
      rcases List.mem_cons.mp h with hy | hys
      · subst hy
        exact le_foldl_max x ys
      · exact mem_le_foldl_max ys y hys

/-- Claim C1 (amended): every id `add_course` assigns strictly exceeds every
course id currently in the collection (so the ids present are pairwise
distinct and each add yields a fresh, larger id); reuse of the id of a
previously deleted course is possible, as `C1_counterexample` shows. -/
theorem C1_new_id_exceeds_current (s : GCState) (name : String) (c' : Course)
    (h : (add_course s name).2 = Except.ok c') :
    ∀ c ∈ s.courses, c.course_id < c'.course_id := by
  intro c hc
  unfold add_course at h
  by_cases hname : pyStrip name = ""
  · simp [hname] at h
  · simp only [hname, if_false, Except.ok.injEq] at h
    have hid : c'.course_id = maxOr0 (s.courses.map Course.course_id) + 1 := by
      rw [← h]
    rw [hid]
    have : c.course_id ≤ maxOr0 (s.courses.map Course.course_id) :=
      le_maxOr0 (List.mem_map_of_mem Course.course_id hc)
    omega
/-- Witness for C1 (amended): in a state holding the single course id 1,
the course returned by `add_course` has a strictly larger id. -/
theorem C1_new_id_exceeds_current_witness :
    Course.course_id ⟨1, "A", []⟩ < Course.course_id ⟨2, "B", []⟩ :=
  C1_new_id_exceeds_current ⟨[⟨1, "A", []⟩], [], [], 0⟩ "B" ⟨2, "B", []⟩ (by decide)
    ⟨1, "A", []⟩ (by decide)

/-- Counterexample to C1 as stated: from an empty store, add courses "A"
(id 1) and "B" (id 2), delete the course with id 2, then add course "C":
the new course is assigned id 2, the id of the previously deleted course. -/
theorem C1_counterexample :
    (add_course (add_course (initialState [] []) "A").1 "B").2
      = Except.ok ⟨2, "B", []⟩ ∧
    (⟨2, "B", []⟩ : Course)
      ∈ (add_course (add_course (initialState [] []) "A").1 "B").1.courses ∧
    (⟨2, "B", []⟩ : Course)
      ∉ (delete_course (add_course (add_course (initialState [] []) "A").1 "B").1
          ⟨2, "B", []⟩).courses ∧
    (add_course
        (delete_course (add_course (add_course (initialState [] []) "A").1 "B").1
          ⟨2, "B", []⟩) "C").2
      = Except.ok ⟨2, "C", []⟩ := by
  decide

/-- Proof helper: linking no assignments changes nothing. -/
theorem linkSpec_nil (cs : List Course) (p : List Int) : linkSpec p cs [] = cs := by
  induction cs generalizing p with
  | nil => rfl
  | cons c rest ih => simp [linkSpec, linkFilter, ih]

/-- Proof helper: an assignment whose course id already belongs to an
earlier course is invisible to the remaining courses. -/
theorem linkSpec_skip (b : Assignment) (as : List Assignment) :
    ∀ (cs : List Course) (p : List Int), b.course_id ∈ p →
      linkSpec p cs (b :: as) = linkSpec p cs as := by
  intro cs
  induction cs with
  | nil => intro p _; rfl
  | cons c rest ih =>
      intro p hb
      have hhead : linkFilter p c (b :: as) = linkFilter p c as := by
        simp [linkFilter, List.filter_cons, hb]
      simp only [linkSpec, hhead, ih (p ++ [c.course_id]) (List.mem_append_left _ hb)]

/-- Proof helper: one pass of `linkOne` commutes with the closed form. -/
theorem linkSpec_linkOne (b : Assignment) (as : List Assignment) :
    ∀ (cs : List Course) (p : List Int), b.course_id ∉ p →
      linkSpec p (linkOne cs b) as = linkSpec p cs (b :: as) := by
  intro cs
  induction cs with
  | nil => intro p _; rfl
  | cons c rest ih =>
      intro p hb
      by_cases h : c.course_id = b.course_id
      · have hpred : (decide (b.course_id = c.course_id ∧ b.course_id ∉ p)) = true :=
          decide_eq_true ⟨h.symm, hb⟩
        have hskip : linkSpec (p ++ [c.course_id]) rest (b :: as)
            = linkSpec (p ++ [c.course_id]) rest as :=
          linkSpec_skip b as rest _ (by simp [h])
        simp only [linkOne, if_pos h, linkSpec, hskip, Course.add_assignment, linkFilter,
          List.filter_cons, hpred, if_true]
        simp [List.append_assoc]
      · have hpred : (decide (b.course_id = c.course_id ∧ b.course_id ∉ p)) = false := by
          simp
          intro hbc
          exact absurd hbc.symm h
        have hrec : linkSpec (p ++ [c.course_id]) (linkOne rest b) as
            = linkSpec (p ++ [c.course_id]) rest (b :: as) := by
          apply ih
          simp [hb]
          intro hc
          exact h hc.symm
        simp only [linkOne, if_neg h, linkSpec, linkFilter, List.filter_cons, hpred,
          Bool.false_eq_true, if_false, hrec]

/-- Proof helper: the linking loop of `load_all_data` computes `linkSpec`. -/
theorem foldl_linkOne_eq_linkSpec (as : List Assignment) :
    ∀ cs : List Course, as.foldl linkOne cs = linkSpec [] cs as := by
  induction as with
  | nil => intro cs; exact (linkSpec_nil cs []).symm
  | cons b as ih =>
      intro cs
      rw [List.foldl_cons, ih (linkOne cs b),
        linkSpec_linkOne b as cs [] (List.not_mem_nil _)]

/-- Proof helper: linking preserves the number of courses. -/
theorem linkSpec_length (as : List Assignment) :
    ∀ (cs : List Course) (p : List Int), (linkSpec p cs as).length = cs.length := by
  intro cs
  induction cs with
  | nil => intro p; rfl
  | cons c rest ih => intro p; simp [linkSpec, ih]

/-- Proof helper: linking distributes over an append of course lists. -/
theorem linkSpec_append (as : List Assignment) (cs₂ : List Course) :
    ∀ (cs₁ : List Course) (p : List Int),
      linkSpec p (cs₁ ++ cs₂) as
        = linkSpec p cs₁ as ++ linkSpec (p ++ cs₁.map Course.course_id) cs₂ as := by
  intro cs₁
  induction cs₁ with
  | nil => intro p; simp [linkSpec]
  | cons c rest ih =>
      intro p
      show linkFilter p c as :: linkSpec (p ++ [c.course_id]) (rest ++ cs₂) as = _
      rw [ih (p ++ [c.course_id])]
      simp [linkSpec, List.append_assoc]

/-- Proof helper: an assignment matching none of the course ids is added to
none of them. -/
theorem not_mem_linkSpec_of_ne (a : Assignment) (as : List Assignment) :
    ∀ (cs : List Course) (p : List Int),
      (∀ c ∈ cs, c.course_id ≠ a.course_id) →
      (∀ c ∈ cs, a ∉ c.assignments) →
      ∀ c' ∈ linkSpec p cs as, a ∉ c'.assignments := by
  intro cs
  induction cs with
  | nil => intro p _ _ c' hc'; cases hc'
  | cons c rest ih =>
      intro p hid hmem c' hc'
      rcases List.mem_cons.mp hc' with h | h
      · subst h
        intro hin
        rcases List.mem_append.mp hin with hold | hfil
        · exact hmem c (List.mem_cons_self c rest) hold
        · have := (List.mem_filter.mp hfil).2
          simp at this
          exact hid c (List.mem_cons_self c rest) this.1.symm
      · exact ih (p ++ [c.course_id])
          (fun d hd => hid d (List.mem_cons_of_mem c hd))
          (fun d hd => hmem d (List.mem_cons_of_mem c hd)) c' h

/-- Proof helper: an assignment whose course id was already claimed by an
earlier course is added to none of the later ones. -/
theorem not_mem_linkSpec_of_claimed (a : Assignment) (as : List Assignment) :
    ∀ (cs : List Course) (p : List Int),
      a.course_id ∈ p →
      (∀ c ∈ cs, a ∉ c.assignments) →
      ∀ c' ∈ linkSpec p cs as, a ∉ c'.assignments := by
  intro cs
  induction cs with
  | nil => intro p _ _ c' hc'; cases hc'
  | cons c rest ih =>
      intro p hp hmem c' hc'
      rcases List.mem_cons.mp hc' with h | h
      · subst h
        intro hin
        rcases List.mem_append.mp hin with hold | hfil
        · exact hmem c (List.mem_cons_self c rest) hold
        · have := (List.mem_filter.mp hfil).2
          simp at this
          exact this.2 hp
      · exact ih (p ++ [c.course_id]) (List.mem_append_left _ hp)
          (fun d hd => hmem d (List.mem_cons_of_mem c hd)) c' h

/-- Claim C4: at load time every loaded assignment goes to the first loaded
course with a matching `course_id` (and to no other course), and an
assignment matching no loaded course ends up in no course's list, with no
error raised. -/
theorem C4_link_first_match (crows : List CourseRow) (arows : List AssignmentRow)
    (a : Assignment) (ha : a ∈ load_assignments arows) :
    ((∀ r ∈ crows, r.course_id ≠ a.course_id) →
      ∀ c' ∈ load_all_data crows arows, a ∉ c'.assignments) ∧
    (∀ (rs₁ : List CourseRow) (r : CourseRow) (rs₂ : List CourseRow),
      crows = rs₁ ++ r :: rs₂ → r.course_id = a.course_id →
      (∀ r' ∈ rs₁, r'.course_id ≠ a.course_id) →
      ∃ (cs₁ : List Course) (c' : Course) (cs₂ : List Course),
        load_all_data crows arows = cs₁ ++ c' :: cs₂ ∧
        cs₁.length = rs₁.length ∧
        c'.course_id = r.course_id ∧
        a ∈ c'.assignments ∧
        (∀ c'' ∈ cs₁, a ∉ c''.assignments) ∧
        (∀ c'' ∈ cs₂, a ∉ c''.assignments)) := by
  constructor
  · intro hnone
    rw [load_all_data, foldl_linkOne_eq_linkSpec]
    apply not_mem_linkSpec_of_ne
    · intro c hc
      rcases List.mem_map.mp hc with ⟨r, hr, rfl⟩
      exact hnone r hr
    · intro c hc
      rcases List.mem_map.mp hc with ⟨r, hr, rfl⟩
      exact List.not_mem_nil a
  · intro rs₁ r rs₂ hsplit hrid hfirst
    rw [load_all_data, foldl_linkOne_eq_linkSpec, hsplit]
    rw [show load_courses (rs₁ ++ r :: rs₂)
        = load_courses rs₁ ++ (⟨r.course_id, r.name, []⟩ : Course) :: load_courses rs₂ by
      simp [load_courses]]
    rw [linkSpec_append]
    refine ⟨linkSpec [] (load_courses rs₁) (load_assignments arows),
      linkFilter ([] ++ (load_courses rs₁).map Course.course_id) ⟨r.course_id, r.name, []⟩
        (load_assignments arows),
      linkSpec (([] ++ (load_courses rs₁).map Course.course_id) ++ [r.course_id])
        (load_courses rs₂) (load_assignments arows),
      by simp [linkSpec], ?_, rfl, ?_, ?_, ?_⟩
    · rw [linkSpec_length]
      simp [load_courses]
    · apply List.mem_append_right
      apply List.mem_filter.mpr
      refine ⟨ha, ?_⟩
      simp [hrid, load_courses, List.map_map]
      intro r' hr'
      show ¬r'.course_id = a.course_id
      exact hfirst r' hr'
    · apply not_mem_linkSpec_of_ne
      · intro c hc
        rcases List.mem_map.mp hc with ⟨r', hr', rfl⟩
        exact hfirst r' hr'
      · intro c hc
        rcases List.mem_map.mp hc with ⟨r', hr', rfl⟩
        exact List.not_mem_nil a
    · apply not_mem_linkSpec_of_claimed
      · apply List.mem_append_right
        simp [hrid]
      · intro c hc
        rcases List.mem_map.mp hc with ⟨r', hr', rfl⟩
        exact List.not_mem_nil a
/-- Witness for C4: with course store rows (1,"A"),(2,"B"), the assignment
row with course_id 2 links into the course built from the first row with id
2, and a dangling assignment with course_id 3 appears in no course. -/
theorem C4_link_first_match_witness :
    (∀ c' ∈ load_all_data [⟨1, "A"⟩] [⟨1, 3, "X", 1, 2⟩],
      (⟨1, 3, "X", 1, 2⟩ : Assignment) ∉ c'.assignments) ∧
    (∃ (cs₁ : List Course) (c' : Course) (cs₂ : List Course),
      load_all_data [⟨1, "A"⟩, ⟨2, "B"⟩] [⟨1, 2, "X", 1, 2⟩] = cs₁ ++ c' :: cs₂ ∧
      cs₁.length = [(⟨1, "A"⟩ : CourseRow)].length ∧
      c'.course_id = CourseRow.course_id ⟨2, "B"⟩ ∧
      (⟨1, 2, "X", 1, 2⟩ : Assignment) ∈ c'.assignments ∧
      (∀ c'' ∈ cs₁, (⟨1, 2, "X", 1, 2⟩ : Assignment) ∉ c''.assignments) ∧
      (∀ c'' ∈ cs₂, (⟨1, 2, "X", 1, 2⟩ : Assignment) ∉ c''.assignments)) := by
  constructor
  · exact (C4_link_first_match [⟨1, "A"⟩] [⟨1, 3, "X", 1, 2⟩] ⟨1, 3, "X", 1, 2⟩ (by decide)).1
      (by decide)
  · exact (C4_link_first_match [⟨1, "A"⟩, ⟨2, "B"⟩] [⟨1, 2, "X", 1, 2⟩] ⟨1, 2, "X", 1, 2⟩
      (by decide)).2 [⟨1, "A"⟩] ⟨2, "B"⟩ [] rfl (by decide) (by decide)

/-- Proof helper: loading the saved course store yields the same courses
with empty assignment lists. -/
theorem load_save_courses (cs : List Course) :
    load_courses (save_all_courses cs)
      = cs.map (fun c => (⟨c.course_id, c.name, []⟩ : Course)) := by
  simp [load_courses, save_all_courses, List.map_map]

/-- Proof helper: an assignment survives the row conversion unchanged. -/
theorem assignment_row_round (l : List Assignment) :
    ((l.map (fun a =>
        (⟨a.assignment_id, a.course_id, a.name, a.score, a.max_points⟩ : AssignmentRow))).map
      (fun r =>
        (⟨r.assignment_id, r.course_id, r.name, r.score, r.max_points⟩ : Assignment))) = l := by
  rw [List.map_map]
  have hid : ((fun r : AssignmentRow =>
        (⟨r.assignment_id, r.course_id, r.name, r.score, r.max_points⟩ : Assignment))
      ∘ (fun a : Assignment =>
        (⟨a.assignment_id, a.course_id, a.name, a.score, a.max_points⟩ : AssignmentRow)))
      = id := funext fun a => rfl
  rw [hid, List.map_id]

/-- Proof helper: loading the saved assignment store yields the flattened
assignment lists, in course order. -/
theorem load_save_assignments (cs : List Course) :
    load_assignments (save_all_assignments cs) = (cs.map Course.assignments).flatten := by
  induction cs with
  | nil => rfl
  | cons c rest ih =>
      have h1 : save_all_assignments (c :: rest)
          = c.assignments.map (fun a =>
              (⟨a.assignment_id, a.course_id, a.name, a.score, a.max_points⟩ : AssignmentRow))
            ++ save_all_assignments rest := by
        simp [save_all_assignments]
      rw [h1]
      unfold load_assignments
      rw [List.map_append]
      show _ ++ _ = c.assignments ++ (rest.map Course.assignments).flatten
      congr 1
      exact assignment_row_round c.assignments

/-- Proof helper: a member of the flattened assignment lists belongs to
some course of the collection. -/
theorem mem_flatten_assignments {b : Assignment} {cs : List Course}
    (h : b ∈ (cs.map Course.assignments).flatten) : ∃ c ∈ cs, b ∈ c.assignments := by
  rcases List.mem_flatten.mp h with ⟨l, hl, hb⟩
  rcases List.mem_map.mp hl with ⟨c, hc, rfl⟩
  exact ⟨c, hc, hb⟩

/-- Proof helper: with distinct course ids and assignments owned by their
course, filtering the flattened list by a course's id recovers exactly
that course's assignments, in order. -/
theorem filter_flatten_eq_own (c : Course) :
    ∀ cs : List Course,
      (cs.map Course.course_id).Nodup →
      (∀ d ∈ cs, ∀ b ∈ d.assignments, b.course_id = d.course_id) →
      c ∈ cs →
      ((cs.map Course.assignments).flatten).filter
          (fun b => decide (b.course_id = c.course_id)) = c.assignments := by
  intro cs
  induction cs with
  | nil => intro _ _ hc; cases hc
  | cons d rest ih =>
      intro hnodup hown hc
      have hnd : d.course_id ∉ rest.map Course.course_id
          ∧ (rest.map Course.course_id).Nodup := by
        rw [List.map_cons, List.nodup_cons] at hnodup
        exact hnodup
      rw [List.map_cons, List.flatten_cons, List.filter_append]
      rcases List.mem_cons.mp hc with h | h
      · subst h
        have h1 : c.assignments.filter (fun b => decide (b.course_id = c.course_id))
            = c.assignments :=
          List.filter_eq_self.mpr (fun b hb =>
            decide_eq_true (hown c (List.mem_cons_self c rest) b hb))
        have h2 : ((rest.map Course.assignments).flatten).filter
            (fun b => decide (b.course_id = c.course_id)) = [] := by
          apply List.filter_eq_nil_iff.mpr
          intro b hb
          rcases mem_flatten_assignments hb with ⟨e, he, hbe⟩
          have hbid : b.course_id = e.course_id :=
            hown e (List.mem_cons_of_mem c he) b hbe
          simp [hbid]
          intro heq
          exact hnd.1 (heq ▸ List.mem_map_of_mem Course.course_id he)
        rw [h1, h2, List.append_nil]
      · have hcid : c.course_id ∈ rest.map Course.course_id :=
          List.mem_map_of_mem Course.course_id h
        have h1 : d.assignments.filter (fun b => decide (b.course_id = c.course_id)) = [] := by
          apply List.filter_eq_nil_iff.mpr
          intro b hb
          have hbid : b.course_id = d.course_id :=
            hown d (List.mem_cons_self d rest) b hb
          simp [hbid]
          intro heq
          exact hnd.1 (heq ▸ hcid)
        rw [h1, List.nil_append]
        exact ih hnd.2 (fun e he => hown e (List.mem_cons_of_mem d he)) h

/-- Proof helper: linking the flattened assignments back into the stripped
courses restores the original collection. -/
theorem linkSpec_restore (as : List Assignment) :
    ∀ (cs : List Course) (p : List Int),
      (cs.map Course.course_id).Nodup →
      (∀ c ∈ cs, c.course_id ∉ p) →
      (∀ c ∈ cs, as.filter (fun b => decide (b.course_id = c.course_id)) = c.assignments) →
      linkSpec p (cs.map (fun c => (⟨c.course_id, c.name, []⟩ : Course))) as = cs := by
  intro cs
  induction cs with
  | nil => intro p _ _ _; rfl
  | cons c rest ih =>
      intro p hnodup hp hfil
      have hnd : c.course_id ∉ rest.map Course.course_id
          ∧ (rest.map Course.course_id).Nodup := by
        rw [List.map_cons, List.nodup_cons] at hnodup
        exact hnodup
      rw [List.map_cons]
      show linkFilter p (⟨c.course_id, c.name, []⟩ : Course) as
          :: linkSpec (p ++ [c.course_id])
            (rest.map (fun c => (⟨c.course_id, c.name, []⟩ : Course))) as
        = c :: rest
      congr 1
      · have hcong : as.filter
              (fun b => decide (b.course_id = c.course_id ∧ b.course_id ∉ p))
            = as.filter (fun b => decide (b.course_id = c.course_id)) := by
          apply List.filter_congr
          intro b _
          by_cases hb : b.course_id = c.course_id
          · have hcp : c.course_id ∉ p := hp c (List.mem_cons_self c rest)
            simp [hb, hcp]
          · simp [hb]
        show (⟨c.course_id, c.name,
            [] ++ as.filter (fun b => decide (b.course_id = c.course_id ∧ b.course_id ∉ p))⟩
          : Course) = c
        rw [List.nil_append, hcong, hfil c (List.mem_cons_self c rest)]
      · apply ih (p ++ [c.course_id]) hnd.2
        · intro d hd
          have hne : d.course_id ≠ c.course_id := by
            intro heq
            exact hnd.1 (heq ▸ List.mem_map_of_mem Course.course_id hd)
          simp [hp d (List.mem_cons_of_mem c hd), hne]
        · intro d hd
          exact hfil d (List.mem_cons_of_mem c hd)

/-- Claim C3: saving a non-empty valid collection (distinct course ids,
each assignment's `course_id` pointing at its owning course) to both stores
and then loading and relinking reproduces the collection exactly — same
course ids and names, same assignment fields, same membership and order. -/
theorem C3_round_trip (cs : List Course)
    (hne : cs ≠ [])
    (hnodup : (cs.map Course.course_id).Nodup)
    (hown : ∀ c ∈ cs, ∀ a ∈ c.assignments, a.course_id = c.course_id) :
    load_all_data (save_all_courses cs) (save_all_assignments cs) = cs := by
  rw [load_all_data, foldl_linkOne_eq_linkSpec, load_save_courses, load_save_assignments]
  apply linkSpec_restore _ cs [] hnodup
  · intro c _
    exact List.not_mem_nil c.course_id
  · intro c hc
    exact filter_flatten_eq_own c cs hnodup hown hc
/-- Witness for C3: a concrete two-course collection with one assignment
each survives the save/load round-trip unchanged. -/
theorem C3_round_trip_witness :
    load_all_data
        (save_all_courses [⟨1, "Algorithms", [⟨1, 1, "HW1", 8, 10⟩]⟩,
          ⟨2, "Physics", [⟨2, 2, "HW2", 18, 20⟩]⟩])
        (save_all_assignments [⟨1, "Algorithms", [⟨1, 1, "HW1", 8, 10⟩]⟩,
          ⟨2, "Physics", [⟨2, 2, "HW2", 18, 20⟩]⟩])
      = [⟨1, "Algorithms", [⟨1, 1, "HW1", 8, 10⟩]⟩,
          ⟨2, "Physics", [⟨2, 2, "HW2", 18, 20⟩]⟩] :=
  C3_round_trip
    [⟨1, "Algorithms", [⟨1, 1, "HW1", 8, 10⟩]⟩, ⟨2, "Physics", [⟨2, 2, "HW2", 18, 20⟩]⟩]
    (by decide) (by decide) (by decide)

end Gradebook
